import Mathlib

/-!
# Infix views of strings and string sets

A shallow embedding of `nvbio/strings/infix.h`: the view `Infix` of one
substring, the two collection cores `InfixSetCore<..,2u>` and
`InfixSetCore<..,4u>`, and the free function `string_id`.

Conventions of the embedding.

* A string (the template parameter `StringType`) is a `List α`; a string set is
  a `List (List α)`; a coordinate array (the `InfixIterator`) is a `List C`.
  The C++ subscript on these is unchecked, so the embedded subscript returns an
  `Option`: `none` stands for a lookup outside the storage.
* Machine integers are natural numbers. Every place where the C++ code
  computes in, or converts to, an unsigned type of `w` bits is an explicit
  reduction modulo `2 ^ w`.
-/

set_option autoImplicit false

namespace nvbio

/-! ## Machine arithmetic -/

/-- Conversion of a value to the type `uint32`. -/
def to_uint32 (n : Nat) : Nat := n % 2 ^ 32

/-- The difference `a - b` of two unsigned integers of `w` bits. -/
def sub_wrap (w a b : Nat) : Nat := (a % 2 ^ w + 2 ^ w - b % 2 ^ w) % 2 ^ w

/-- The sum `a + b` of two unsigned integers of `w` bits. -/
def add_wrap (w a b : Nat) : Nat := (a % 2 ^ w + b % 2 ^ w) % 2 ^ w

/-! ## Coordinate types -/

/-- The CUDA vector type `uint2`: two fields of 32 bits. -/
structure uint2 where
  x : Nat
  y : Nat
deriving DecidableEq, Repr

/-- The CUDA vector type `uint4`: four fields of 32 bits. -/
structure uint4 where
  x : Nat
  y : Nat
  z : Nat
  w : Nat
deriving DecidableEq, Repr

/-- The vector type `uint64_2`: two fields of 64 bits. -/
structure uint64_2 where
  x : Nat
  y : Nat
deriving DecidableEq, Repr

/-- The vector type `uint64_4`: four fields of 64 bits. -/
structure uint64_4 where
  x : Nat
  y : Nat
  z : Nat
  w : Nat
deriving DecidableEq, Repr

/-- `make_uint2`. -/
def make_uint2 (x y : Nat) : uint2 := ⟨x, y⟩

/-- What `Infix` uses of its template parameter `CoordType`: the fields `.x`
and `.y`, and the width in bits of the field type, which fixes the arithmetic
the fields take part in. -/
class CoordType (C : Type) where
  BITS : Nat
  x : C → Nat
  y : C → Nat

/-- A coordinate type that also has the field `.z`, which `string_id` and the
string-set core read. -/
class CoordTypeZ (C : Type) extends CoordType C where
  z : C → Nat

instance : CoordType uint2 where
  BITS := 32
  x := uint2.x
  y := uint2.y

instance : CoordType uint64_2 where
  BITS := 64
  x := uint64_2.x
  y := uint64_2.y

instance : CoordTypeZ uint4 where
  BITS := 32
  x := uint4.x
  y := uint4.y
  z := uint4.z

instance : CoordTypeZ uint64_4 where
  BITS := 64
  x := uint64_4.x
  y := uint64_4.y
  z := uint64_4.z

/-! ## Infix -/

/-- The struct `Infix<StringType,CoordType>`; `Infix.mk string coords` is the
two-argument constructor. -/
structure Infix (α : Type) (C : Type) where
  m_string : List α
  m_coords : C

namespace Infix

variable {α : Type} {C : Type}

/-- `uint32 size() const { return m_coords.y - m_coords.x; }`: the difference is
taken in the field type and converted to the return type `uint32`. -/
def size [CoordType C] (s : Infix α C) : Nat :=
  to_uint32 (sub_wrap (CoordType.BITS C) (CoordType.y s.m_coords) (CoordType.x s.m_coords))

/-- `uint32 length() const { return size(); }`. -/
def length [CoordType C] (s : Infix α C) : Nat := s.size

/-- `symbol_type operator[] (const uint32 i) const { return m_string[ m_coords.x + i ]; }`:
the argument is a `uint32`, the sum is taken in the field type (which is at
least as wide as `uint32`), and the lookup in the string is unchecked. -/
def index [CoordType C] (s : Infix α C) (i : Nat) : Option α :=
  s.m_string[add_wrap (CoordType.BITS C) (CoordType.x s.m_coords) (to_uint32 i)]?

/-- `uint2 range() const { return make_uint2( m_coords.y, m_coords.x ); }`: the
arguments of `make_uint2` are `uint32`. -/
def range [CoordType C] (s : Infix α C) : uint2 :=
  make_uint2 (to_uint32 (CoordType.y s.m_coords)) (to_uint32 (CoordType.x s.m_coords))

/-- `coord_type coords() const { return m_coords; }`. -/
def coords (s : Infix α C) : C := s.m_coords

/-- The symbols read from the infix at the positions `0, 1, ..., size()-1`,
in this order. -/
def symbols [CoordType C] (s : Infix α C) : List (Option α) :=
  (List.range s.size).map s.index

end Infix

/-! ## Infix sets -/

/-- The specialization `InfixSetCore<SequenceType,InfixIterator,2u>`: infixes of
one string. `InfixSetCore2.mk size sequence infixes` is the three-argument
constructor, whose first argument is a `uint32`. -/
structure InfixSetCore2 (α : Type) (C : Type) where
  m_size : Nat
  m_sequence : List α
  m_infixes : List C

/-- The specialization `InfixSetCore<SequenceType,InfixIterator,4u>`: infixes of
a string set. `InfixSetCore4.mk size sequence infixes` is the three-argument
constructor, whose first argument is a `uint32`. -/
structure InfixSetCore4 (α : Type) (C : Type) where
  m_size : Nat
  m_sequence : List (List α)
  m_infixes : List C

namespace InfixSetCore2

variable {α : Type} {C : Type}

/-- `uint32 size() const { return m_size; }`. -/
def size (s : InfixSetCore2 α C) : Nat := s.m_size

/-- The subscript `operator[] (const uint32 i) const`:
`coords = m_infixes[i]; return string_type( m_sequence, coords );`. -/
def index (s : InfixSetCore2 α C) (i : Nat) : Option (Infix α C) :=
  match s.m_infixes[to_uint32 i]? with
  | none => none
  | some coords => some (Infix.mk s.m_sequence coords)

end InfixSetCore2

namespace InfixSetCore4

variable {α : Type} {C : Type}

/-- `uint32 size() const { return m_size; }`. -/
def size (s : InfixSetCore4 α C) : Nat := s.m_size

/-- The subscript `operator[] (const uint32 i) const`:
`coords = m_infixes[i]; return string_type( m_sequence[ coords.z ], coords );`. -/
def index [CoordTypeZ C] (s : InfixSetCore4 α C) (i : Nat) : Option (Infix α C) :=
  match s.m_infixes[to_uint32 i]? with
  | none => none
  | some coords =>
    match s.m_sequence[CoordTypeZ.z coords]? with
    | none => none
    | some str => some (Infix.mk str coords)

end InfixSetCore4

/-- `uint32 string_id(const Infix<StringType,CoordType>& infix) { return infix.m_coords.z; }`. -/
def string_id {α : Type} {C : Type} [CoordTypeZ C] (s : Infix α C) : Nat :=
  to_uint32 (CoordTypeZ.z s.m_coords)

/-! ## Writing through an infix -/

/-- The assignment `infix[i] = v` through
`reference operator[] (const uint32 i) { return m_string[ m_coords.x + i ]; }`:
the reference designates the element `m_coords.x + i` of the string the infix
views, so the assignment changes that string and nothing else. The result is
the infix over the string after the write; `none` stands for a reference
outside the storage. -/
def Infix.assign {α : Type} {C : Type} [CoordType C] (s : Infix α C) (i : Nat) (v : α) :
    Option (Infix α C) :=
  if add_wrap (CoordType.BITS C) (CoordType.x s.m_coords) (to_uint32 i) < s.m_string.length then
    some (Infix.mk
      (s.m_string.set (add_wrap (CoordType.BITS C) (CoordType.x s.m_coords) (to_uint32 i)) v)
      s.m_coords)
  else none

/-! ## The dispatcher InfixSet -/

/-- The CUDA vector type `uint3`: three fields of 32 bits. -/
structure uint3 where
  x : Nat
  y : Nat
  z : Nat
deriving DecidableEq, Repr

instance : CoordTypeZ uint3 where
  BITS := 32
  x := uint3.x
  y := uint3.y
  z := uint3.z

/-- Modelled from the spec: the constant `vector_traits<T>::DIM`, which this
header uses and another header declares. It is the number of fields the
coordinate type carries. -/
class vector_traits (C : Type) where
  DIM : Nat

instance : vector_traits uint2 := ⟨2⟩

instance : vector_traits uint4 := ⟨4⟩

instance : vector_traits uint64_2 := ⟨2⟩

instance : vector_traits uint64_4 := ⟨4⟩

/-- The class template `InfixSetCore<SequenceType,InfixIterator,CoordDim>`: the
objects of the class that a value of `CoordDim` selects. For `2u` and `4u` these
are the objects of the two specializations (the one for `4u` reads the field
`.z` of the coordinate type); for every other value the primary
template `struct InfixSetCore {};` is selected, whose objects have no member. -/
inductive InfixSetCore (α : Type) (C : Type) : Nat → Type where
  | string (core : InfixSetCore2 α C) : InfixSetCore α C 2
  | string_set (coord : CoordTypeZ C) (core : InfixSetCore4 α C) : InfixSetCore α C 4
  | primary (CoordDim : Nat) (h2 : CoordDim ≠ 2) (h4 : CoordDim ≠ 4) : InfixSetCore α C CoordDim

namespace InfixSetCore

variable {α : Type} {C : Type} {CoordDim : Nat}

/-- The member `size()` of the selected class; `none` when the class has no
such member. -/
def size : InfixSetCore α C CoordDim → Option Nat
  | .string core => some core.size
  | .string_set _ core => some core.size
  | .primary _ _ _ => none

/-- The member `operator[]` of the selected class; `none` when the class has
no such member, or when the member reads outside the storage. -/
def index : InfixSetCore α C CoordDim → Nat → Option (Infix α C)
  | .string core, i => core.index i
  | .string_set coord core, i => @InfixSetCore4.index α C coord core i
  | .primary _ _ _, _ => none

/-- Whether the selected class declares the member types `coord_type` and
`string_type` and the members `size()` and `operator[]`: both specializations
declare all four, the primary template none. -/
def has_members : InfixSetCore α C CoordDim → Bool
  | .string _ => true
  | .string_set _ _ => true
  | .primary _ _ _ => false

/-- An object of the specialization for `2u`, as an object of the class that
`CoordDim` selects when `CoordDim` is 2. -/
def of_core2 (h : CoordDim = 2) (core : InfixSetCore2 α C) : InfixSetCore α C CoordDim :=
  h ▸ InfixSetCore.string core

/-- An object of the specialization for `4u`, as an object of the class that
`CoordDim` selects when `CoordDim` is 4. -/
def of_core4 (coord : CoordTypeZ C) (h : CoordDim = 4) (core : InfixSetCore4 α C) :
    InfixSetCore α C CoordDim :=
  h ▸ InfixSetCore.string_set coord core

end InfixSetCore

/-- The struct `InfixSet<SequenceType,InfixIterator>`. It derives from
`base_type`, which is
`InfixSetCore<SequenceType,InfixIterator,vector_traits<coord_type>::DIM>`; its
typedefs `typedef typename base_type::coord_type coord_type;` and
`typedef typename base_type::string_type string_type;` name member types of the
base, so the struct is well-formed only over a base that declares them; besides
typedefs it declares constructors and nothing else. -/
structure InfixSet (α : Type) (C : Type) [vector_traits C] where
  base : InfixSetCore α C (vector_traits.DIM C)
  member_types : base.has_members = true

namespace InfixSet

variable {α : Type} {C : Type} [vector_traits C]

/-- The constructor `InfixSet(size, sequence, infixes) : base_type( size, sequence, infixes ) {}`
when the base is the specialization for `2u`. -/
def of_string (h : vector_traits.DIM C = 2) (size : Nat) (sequence : List α)
    (infixes : List C) : InfixSet α C :=
  ⟨InfixSetCore.of_core2 h (InfixSetCore2.mk size sequence infixes),
    (show ∀ (d : Nat) (hd : d = 2),
        (InfixSetCore.of_core2 hd (InfixSetCore2.mk size sequence infixes) :
          InfixSetCore α C d).has_members = true
      from fun d hd => by subst hd; rfl) _ h⟩

/-- The constructor `InfixSet(size, sequence, infixes) : base_type( size, sequence, infixes ) {}`
when the base is the specialization for `4u`. -/
def of_string_set [coord : CoordTypeZ C] (h : vector_traits.DIM C = 4) (size : Nat)
    (sequence : List (List α)) (infixes : List C) : InfixSet α C :=
  ⟨InfixSetCore.of_core4 coord h (InfixSetCore4.mk size sequence infixes),
    (show ∀ (d : Nat) (hd : d = 4),
        (InfixSetCore.of_core4 coord hd (InfixSetCore4.mk size sequence infixes) :
          InfixSetCore α C d).has_members = true
      from fun d hd => by subst hd; rfl) _ h⟩

/-- The inherited member `size()`. -/
def size (s : InfixSet α C) : Option Nat := InfixSetCore.size s.base

/-- The inherited member `operator[]`. -/
def index (s : InfixSet α C) (i : Nat) : Option (Infix α C) := InfixSetCore.index s.base i

/-- Whether the struct inherits the members `size()` and `operator[]`. -/
def has_members (s : InfixSet α C) : Bool := InfixSetCore.has_members s.base

end InfixSet

/-! ## Arithmetic lemmas -/

theorem to_uint32_of_lt {n : Nat} (h : n < 2 ^ 32) : to_uint32 n = n :=
  Nat.mod_eq_of_lt h

theorem sub_wrap_of_le {w a b : Nat} (hab : a ≤ b) (hb : b < 2 ^ w) :
    sub_wrap w b a = b - a := by
  have ha : a < 2 ^ w := lt_of_le_of_lt hab hb
  unfold sub_wrap
  rw [Nat.mod_eq_of_lt hb, Nat.mod_eq_of_lt ha]
  have h1 : b + 2 ^ w - a = (b - a) + 2 ^ w := by omega
  rw [h1, Nat.add_mod_right]
  exact Nat.mod_eq_of_lt (by omega)

theorem sub_wrap_self (w a : Nat) : sub_wrap w a a = 0 := by
  unfold sub_wrap
  have hlt : a % 2 ^ w < 2 ^ w := Nat.mod_lt _ (Nat.pos_pow_of_pos w (by decide))
  have h1 : a % 2 ^ w + 2 ^ w - a % 2 ^ w = 2 ^ w := by omega
  rw [h1, Nat.mod_self]

theorem add_wrap_of_lt {w a b : Nat} (h : a + b < 2 ^ w) : add_wrap w a b = a + b := by
  unfold add_wrap
  rw [Nat.mod_eq_of_lt (show a < 2 ^ w by omega), Nat.mod_eq_of_lt (show b < 2 ^ w by omega)]
  exact Nat.mod_eq_of_lt h

/-! ## Infix: size, subscript and symbols when nothing wraps -/

section InfixLemmas

variable {α : Type} {C : Type} [CoordType C]

theorem Infix.size_of_le (seq : List α) (c : C)
    (hle : CoordType.x c ≤ CoordType.y c) (hB : CoordType.y c < 2 ^ CoordType.BITS C)
    (h32 : CoordType.y c - CoordType.x c < 2 ^ 32) :
    (Infix.mk seq c).size = CoordType.y c - CoordType.x c := by
  show to_uint32 (sub_wrap (CoordType.BITS C) (CoordType.y c) (CoordType.x c)) = _
  rw [sub_wrap_of_le hle hB]
  exact to_uint32_of_lt h32

theorem Infix.index_no_wrap (seq : List α) (c : C) (i : Nat) (hi : i < 2 ^ 32)
    (hB : CoordType.x c + i < 2 ^ CoordType.BITS C) :
    (Infix.mk seq c).index i = seq[CoordType.x c + i]? := by
  show seq[add_wrap (CoordType.BITS C) (CoordType.x c) (to_uint32 i)]? = _
  rw [to_uint32_of_lt hi, add_wrap_of_lt hB]

theorem Infix.symbols_of_le (seq : List α) (c : C)
    (hle : CoordType.x c ≤ CoordType.y c) (hlen : CoordType.y c ≤ seq.length)
    (hB : CoordType.y c < 2 ^ CoordType.BITS C)
    (h32 : CoordType.y c - CoordType.x c < 2 ^ 32) :
    (Infix.mk seq c).symbols
      = ((seq.drop (CoordType.x c)).take (CoordType.y c - CoordType.x c)).map some := by
  have hsize := Infix.size_of_le seq c hle hB h32
  apply List.ext_getElem?
  intro n
  unfold Infix.symbols
  rw [hsize]
  by_cases hn : n < CoordType.y c - CoordType.x c
  · have hidx := Infix.index_no_wrap seq c n (by omega) (by omega)
    have hlt : CoordType.x c + n < seq.length := by omega
    simp [List.getElem?_map, List.getElem?_range hn, List.getElem?_take, hn, hidx,
      List.getElem?_eq_getElem hlt]
  · have h1 : ((List.range (CoordType.y c - CoordType.x c)).map
        (Infix.mk seq c).index)[n]? = none := by
      apply List.getElem?_eq_none
      simp
      omega
    have h2 : (((seq.drop (CoordType.x c)).take
        (CoordType.y c - CoordType.x c)).map some)[n]? = none := by
      apply List.getElem?_eq_none
      simp
      omega
    rw [h1, h2]

end InfixLemmas

theorem Infix.size_uint2_of_le {α : Type} (seq : List α) (c : uint2)
    (hle : c.x ≤ c.y) (h32 : c.y < 2 ^ 32) : (Infix.mk seq c).size = c.y - c.x :=
  Infix.size_of_le seq c hle h32 (show c.y - c.x < 2 ^ 32 by omega)

theorem Infix.index_uint2_of_lt {α : Type} (seq : List α) (c : uint2) (i : Nat)
    (h : c.x + i < 2 ^ 32) : (Infix.mk seq c).index i = seq[c.x + i]? :=
  Infix.index_no_wrap seq c i (by omega) h

theorem Infix.symbols_uint4_of_le {α : Type} (seq : List α) (c : uint4)
    (hle : c.x ≤ c.y) (hlen : c.y ≤ seq.length) (h32 : c.y < 2 ^ 32) :
    (Infix.mk seq c).symbols = ((seq.drop c.x).take (c.y - c.x)).map some :=
  Infix.symbols_of_le seq c hle hlen h32 (show c.y - c.x < 2 ^ 32 by omega)

/-! ## Infix sets: the subscript inside the coordinate array -/

theorem InfixSetCore2.index_in_coords {α : Type} {C : Type} (n : Nat) (S : List α) (cs : List C)
    (i : Nat) (hi : i < cs.length) (hi32 : i < 2 ^ 32) :
    (InfixSetCore2.mk n S cs).index i = some (Infix.mk S (cs.get ⟨i, hi⟩)) := by
  unfold InfixSetCore2.index
  simp [to_uint32_of_lt hi32, List.getElem?_eq_getElem hi]

theorem InfixSetCore4.index_in_coords_owner {α : Type} {C : Type} [CoordTypeZ C] (n : Nat)
    (SS : List (List α)) (cs : List C) (i : Nat) (hi : i < cs.length) (hi32 : i < 2 ^ 32)
    (hz : CoordTypeZ.z (cs.get ⟨i, hi⟩) < SS.length) :
    (InfixSetCore4.mk n SS cs).index i
      = some (Infix.mk (SS.get ⟨CoordTypeZ.z (cs.get ⟨i, hi⟩), hz⟩) (cs.get ⟨i, hi⟩)) := by
  have hz2 : CoordTypeZ.z cs[i] < SS.length := hz
  unfold InfixSetCore4.index
  simp [to_uint32_of_lt hi32, List.getElem?_eq_getElem hi, List.getElem?_eq_getElem hz2]

/-! ## The claims -/

/-- C1. For a string `seq` and a pair coordinate `(begin, end)` of 32-bit fields
with `begin ≤ end`, the infix built from them has `size() = end - begin`, and
`length()` returns the same value as `size()`. The bound `end ≤ length(seq)`
plays no part in it: `size()` never reads the string. -/
theorem Infix_size_eq_end_sub_begin {α : Type} (seq : List α) (c : uint2)
    (hle : c.x ≤ c.y) (h32 : c.y < 2 ^ 32) :
    (Infix.mk seq c).size = c.y - c.x ∧ (Infix.mk seq c).length = (Infix.mk seq c).size :=
  ⟨Infix.size_uint2_of_le seq c hle h32, rfl⟩

/-- Witness of C1 on the string ACGTACGT and the coordinate (2,5). -/
theorem Infix_size_eq_end_sub_begin_witness :
    (2 : Nat) ≤ 5 ∧ (5 : Nat) < 2 ^ 32 ∧
    (Infix.mk "ACGTACGT".toList (uint2.mk 2 5)).size = 5 - 2 ∧
    (Infix.mk "ACGTACGT".toList (uint2.mk 2 5)).length
      = (Infix.mk "ACGTACGT".toList (uint2.mk 2 5)).size :=
  ⟨by decide, by decide,
    Infix_size_eq_end_sub_begin "ACGTACGT".toList (uint2.mk 2 5) (by decide) (by decide)⟩

/-- C2. For a string `seq`, a pair coordinate `(begin, end)` of 32-bit fields
with `begin ≤ end ≤ length(seq)` and an index `i < size()`, the indexed read of
the infix at `i` is inside the string and returns `seq[begin + i]`. -/
theorem Infix_index_eq_parent_at_begin_add {α : Type} (seq : List α) (c : uint2)
    (hle : c.x ≤ c.y) (hlen : c.y ≤ seq.length) (h32 : c.y < 2 ^ 32)
    (i : Nat) (hi : i < (Infix.mk seq c).size) :
    ∃ h : c.x + i < seq.length, (Infix.mk seq c).index i = some (seq.get ⟨c.x + i, h⟩) := by
  rw [Infix.size_uint2_of_le seq c hle h32] at hi
  have hlt : c.x + i < seq.length := by omega
  refine ⟨hlt, ?_⟩
  rw [Infix.index_uint2_of_lt seq c i (by omega)]
  simp [List.getElem?_eq_getElem hlt]

/-- Witness of C2: reading position 1 of the infix (2,5) of ACGTACGT gives the
symbol at position 3 of the string. -/
theorem Infix_index_eq_parent_at_begin_add_witness :
    ∃ h : 2 + 1 < "ACGTACGT".toList.length,
      (Infix.mk "ACGTACGT".toList (uint2.mk 2 5)).index 1
        = some ("ACGTACGT".toList.get ⟨2 + 1, h⟩) :=
  Infix_index_eq_parent_at_begin_add "ACGTACGT".toList (uint2.mk 2 5)
    (by decide) (by decide) (by decide) 1 (by decide)

/-- C3. For a string `seq` and a pair coordinate `(begin, end)` of 32-bit fields
with `begin ≤ end ≤ length(seq)`, the symbols read from the infix at the
positions `0, ..., size()-1` are the slice `[begin, end)` of `seq` (drop
`begin`, then take `end - begin`), every read being inside the string; on
ACGTACGT and (2,5) the size is 3 and the symbols are GTA. -/
theorem Infix_symbols_eq_slice {α : Type} (seq : List α) (c : uint2)
    (hle : c.x ≤ c.y) (hlen : c.y ≤ seq.length) (h32 : c.y < 2 ^ 32) :
    (Infix.mk seq c).symbols = ((seq.drop c.x).take (c.y - c.x)).map some ∧
    (Infix.mk "ACGTACGT".toList (uint2.mk 2 5)).size = 3 ∧
    (Infix.mk "ACGTACGT".toList (uint2.mk 2 5)).symbols = "GTA".toList.map some :=
  ⟨Infix.symbols_of_le seq c hle hlen h32 (show c.y - c.x < 2 ^ 32 by omega),
    by decide, by decide⟩

/-- Witness of C3 on the string ACGTACGT and the coordinate (2,5). -/
theorem Infix_symbols_eq_slice_witness :
    (Infix.mk "ACGTACGT".toList (uint2.mk 2 5)).symbols
      = (("ACGTACGT".toList.drop 2).take (5 - 2)).map some ∧
    ("ACGTACGT".toList.drop 2).take (5 - 2) = "GTA".toList :=
  ⟨(Infix_symbols_eq_slice "ACGTACGT".toList (uint2.mk 2 5)
      (by decide) (by decide) (by decide)).1, by decide⟩

/-- C4. For every string `s` and every coordinate `c`, of any coordinate type
(pair or quadruple), `Infix(s, c).coords()` is `c`; spelled out on the fields of
a pair `p` and of a quadruple `q`. -/
theorem Infix_coords_eq_constructed {α : Type} {C : Type} (s : List α) (c : C)
    (p : uint2) (q : uint4) :
    (Infix.mk s c).coords = c ∧
    ((Infix.mk s p).coords.x = p.x ∧ (Infix.mk s p).coords.y = p.y) ∧
    ((Infix.mk s q).coords.x = q.x ∧ (Infix.mk s q).coords.y = q.y ∧
      (Infix.mk s q).coords.z = q.z ∧ (Infix.mk s q).coords.w = q.w) :=
  ⟨rfl, ⟨rfl, rfl⟩, ⟨rfl, rfl, rfl, rfl⟩⟩

/-- C5. For an infix whose coordinate fields `begin` and `end` are 32-bit values,
`range()` is the pair whose first component is `end` and whose second component
is `begin`. -/
theorem Infix_range_eq_end_begin {α : Type} {C : Type} [CoordType C] (s : List α) (c : C)
    (hx : CoordType.x c < 2 ^ 32) (hy : CoordType.y c < 2 ^ 32) :
    (Infix.mk s c).range = uint2.mk (CoordType.y c) (CoordType.x c) ∧
    (Infix.mk s c).range.x = CoordType.y c ∧ (Infix.mk s c).range.y = CoordType.x c := by
  have h : (Infix.mk s c).range = uint2.mk (CoordType.y c) (CoordType.x c) := by
    show make_uint2 (to_uint32 (CoordType.y c)) (to_uint32 (CoordType.x c)) = _
    rw [to_uint32_of_lt hx, to_uint32_of_lt hy]
    rfl
  exact ⟨h, by rw [h], by rw [h]⟩

/-- Witness of C5: the infix (2,5) of ACGTACGT has range (5,2). -/
theorem Infix_range_eq_end_begin_witness :
    (Infix.mk "ACGTACGT".toList (uint2.mk 2 5)).range = uint2.mk 5 2 :=
  (Infix_range_eq_end_begin "ACGTACGT".toList (uint2.mk 2 5) (by decide) (by decide)).1

/-- C6. For a single-sequence collection over the string `S` and the array `cs`
of pair coordinates, built with any count `n`, and an index `i < length(cs)`
(a `uint32`): `collection[i]` is `Infix(S, cs[i])`, so its parent is `S`, its
`coords()` is `cs[i]`, and its `size()` is `cs[i].end - cs[i].begin` when
`cs[i].begin ≤ cs[i].end` are 32-bit values. -/
theorem InfixSetCore2_index_eq_Infix {α : Type} (n : Nat) (S : List α) (cs : List uint2)
    (i : Nat) (hi : i < cs.length) (hi32 : i < 2 ^ 32) :
    ∃ v : Infix α uint2, (InfixSetCore2.mk n S cs).index i = some v ∧
      v = Infix.mk S (cs.get ⟨i, hi⟩) ∧ v.m_string = S ∧ v.coords = cs.get ⟨i, hi⟩ ∧
      ((cs.get ⟨i, hi⟩).x ≤ (cs.get ⟨i, hi⟩).y → (cs.get ⟨i, hi⟩).y < 2 ^ 32 →
        v.size = (cs.get ⟨i, hi⟩).y - (cs.get ⟨i, hi⟩).x) :=
  ⟨Infix.mk S (cs.get ⟨i, hi⟩), InfixSetCore2.index_in_coords n S cs i hi hi32, rfl, rfl, rfl,
    fun hle h32 => Infix.size_uint2_of_le S (cs.get ⟨i, hi⟩) hle h32⟩

/-- Witness of C6: element 1 of the collection over ACGTACGT with the
coordinates (0,4), (2,5), (7,8) is the infix (2,5), of size 3. -/
theorem InfixSetCore2_index_eq_Infix_witness :
    ∃ v : Infix Char uint2,
      (InfixSetCore2.mk 3 "ACGTACGT".toList [uint2.mk 0 4, uint2.mk 2 5, uint2.mk 7 8]).index 1
        = some v ∧
      v.m_string = "ACGTACGT".toList ∧ v.coords = uint2.mk 2 5 ∧ v.size = 3 := by
  obtain ⟨v, hv, _, hs, hc, hsize⟩ := InfixSetCore2_index_eq_Infix 3 "ACGTACGT".toList
    [uint2.mk 0 4, uint2.mk 2 5, uint2.mk 7 8] 1 (by decide) (by decide)
  exact ⟨v, hv, hs, hc, hsize (by decide) (by decide)⟩

/-- C7. For a multi-sequence collection over the string set `SS` and the array
`cs` of quadruple coordinates, built with any count `n`, and an index
`i < length(cs)` (a `uint32`) whose owner-id `cs[i].z` is below `length(SS)`:
`collection[i]` is `Infix(SS[cs[i].z], cs[i])`, its `coords()` is `cs[i]`, and
when `cs[i].begin ≤ cs[i].end ≤ length(SS[cs[i].z])` are 32-bit values its
symbols are the slice `[begin, end)` of `SS[cs[i].z]`. On SS = [AAAA, CCCCCC]
and the coordinate (1,4,1,0) the symbols are CCC. -/
theorem InfixSetCore4_index_eq_Infix {α : Type} (n : Nat) (SS : List (List α))
    (cs : List uint4) (i : Nat) (hi : i < cs.length) (hi32 : i < 2 ^ 32)
    (hz : (cs.get ⟨i, hi⟩).z < SS.length) :
    (∃ v : Infix α uint4, (InfixSetCore4.mk n SS cs).index i = some v ∧
      v = Infix.mk (SS.get ⟨(cs.get ⟨i, hi⟩).z, hz⟩) (cs.get ⟨i, hi⟩) ∧
      v.coords = cs.get ⟨i, hi⟩ ∧
      ((cs.get ⟨i, hi⟩).x ≤ (cs.get ⟨i, hi⟩).y →
        (cs.get ⟨i, hi⟩).y ≤ (SS.get ⟨(cs.get ⟨i, hi⟩).z, hz⟩).length →
        (cs.get ⟨i, hi⟩).y < 2 ^ 32 →
        v.symbols = (((SS.get ⟨(cs.get ⟨i, hi⟩).z, hz⟩).drop (cs.get ⟨i, hi⟩).x).take
          ((cs.get ⟨i, hi⟩).y - (cs.get ⟨i, hi⟩).x)).map some)) ∧
    ((InfixSetCore4.mk 1 ["AAAA".toList, "CCCCCC".toList] [uint4.mk 1 4 1 0]).index 0).map
        Infix.symbols = some ("CCC".toList.map some) :=
  ⟨⟨Infix.mk (SS.get ⟨(cs.get ⟨i, hi⟩).z, hz⟩) (cs.get ⟨i, hi⟩),
      InfixSetCore4.index_in_coords_owner n SS cs i hi hi32 hz, rfl, rfl,
      fun hle hlen h32 => Infix.symbols_uint4_of_le _ _ hle hlen h32⟩,
    by decide⟩

/-- Witness of C7 on SS = [AAAA, CCCCCC] and the single coordinate (1,4,1,0). -/
theorem InfixSetCore4_index_eq_Infix_witness :
    ∃ v : Infix Char uint4,
      (InfixSetCore4.mk 1 ["AAAA".toList, "CCCCCC".toList] [uint4.mk 1 4 1 0]).index 0 = some v ∧
      v.m_string = "CCCCCC".toList ∧ v.coords = uint4.mk 1 4 1 0 ∧
      v.symbols = "CCC".toList.map some := by
  obtain ⟨⟨v, hv, hs, hc, hsym⟩, _⟩ := InfixSetCore4_index_eq_Infix 1
    ["AAAA".toList, "CCCCCC".toList] [uint4.mk 1 4 1 0] 0 (by decide) (by decide) (by decide)
  refine ⟨v, hv, ?_, hc, ?_⟩
  · rw [hs]
    rfl
  · rw [hsym (by decide) (by decide) (by decide)]
    decide

/-- C8. For an infix with a quadruple coordinate `q` of 32-bit fields,
`string_id` returns the third field of `q`; and for a multi-sequence collection
over the array `cs` of such coordinates and an index `i < length(cs)` whose
owner-id is a member of the string set, `string_id(collection[i])` is
`cs[i].z`. -/
theorem string_id_eq_owner_id {α : Type} (s : List α) (q : uint4) (hq : q.z < 2 ^ 32)
    (n : Nat) (SS : List (List α)) (cs : List uint4) (i : Nat) (hi : i < cs.length)
    (hi32 : i < 2 ^ 32) (hz : (cs.get ⟨i, hi⟩).z < SS.length)
    (hz32 : (cs.get ⟨i, hi⟩).z < 2 ^ 32) :
    string_id (Infix.mk s q) = q.z ∧
    ∃ v : Infix α uint4, (InfixSetCore4.mk n SS cs).index i = some v ∧
      string_id v = (cs.get ⟨i, hi⟩).z :=
  ⟨to_uint32_of_lt hq,
    ⟨Infix.mk (SS.get ⟨(cs.get ⟨i, hi⟩).z, hz⟩) (cs.get ⟨i, hi⟩),
      InfixSetCore4.index_in_coords_owner n SS cs i hi hi32 hz, to_uint32_of_lt hz32⟩⟩

/-- Witness of C8 on SS = [AAAA, CCCCCC] and the coordinate (1,4,1,0), whose
owner-id is 1. -/
theorem string_id_eq_owner_id_witness :
    string_id (Infix.mk "CCCCCC".toList (uint4.mk 1 4 1 0)) = 1 ∧
    ∃ v : Infix Char uint4,
      (InfixSetCore4.mk 1 ["AAAA".toList, "CCCCCC".toList] [uint4.mk 1 4 1 0]).index 0 = some v ∧
      string_id v = 1 :=
  string_id_eq_owner_id "CCCCCC".toList (uint4.mk 1 4 1 0) (by decide) 1
    ["AAAA".toList, "CCCCCC".toList] [uint4.mk 1 4 1 0] 0 (by decide) (by decide) (by decide)
    (by decide)

/-- C9, as stated, fails: a single-sequence collection built with the count 1
over an array of three coordinates has `size()` 1, not 3, and a multi-sequence
collection built with the count 5 over an array of one coordinate has `size()`
5, not 1. -/
theorem InfixSetCore_size_ne_length_of_coords :
    (InfixSetCore2.mk 1 "ACGTACGT".toList [uint2.mk 0 4, uint2.mk 2 5, uint2.mk 7 8]).size
      ≠ [uint2.mk 0 4, uint2.mk 2 5, uint2.mk 7 8].length ∧
    (InfixSetCore4.mk 5 ["AAAA".toList, "CCCCCC".toList] [uint4.mk 1 4 1 0]).size
      ≠ [uint4.mk 1 4 1 0].length :=
  ⟨by decide, by decide⟩

/-- C9, amended. For a collection of either variant built with the count `n`
over the coordinate array `cs`, `size()` is `n`, whatever the length of `cs`;
it is the length of `cs` exactly when the collection is built with the count
`length(cs)`. -/
theorem InfixSetCore_size_eq_count {α : Type} {C : Type} (n : Nat) (S : List α)
    (SS : List (List α)) (cs : List C) :
    (InfixSetCore2.mk n S cs).size = n ∧ (InfixSetCore4.mk n SS cs).size = n ∧
    ((InfixSetCore2.mk n S cs).size = cs.length ↔ n = cs.length) ∧
    ((InfixSetCore4.mk n SS cs).size = cs.length ↔ n = cs.length) :=
  ⟨rfl, rfl, Iff.rfl, Iff.rfl⟩

/-- C10. For every string `seq` and every `k`, the infix with the coordinate
`(k, k)` has `size() = 0`, and no index `i` satisfies `i < size()`. -/
theorem Infix_size_zero_of_begin_eq_end {α : Type} (seq : List α) (k : Nat) :
    (Infix.mk seq (uint2.mk k k)).size = 0 ∧
    ¬ ∃ i : Nat, 0 ≤ i ∧ i < (Infix.mk seq (uint2.mk k k)).size := by
  have h : (Infix.mk seq (uint2.mk k k)).size = 0 := by
    show to_uint32 (sub_wrap 32 k k) = 0
    rw [sub_wrap_self]
    rfl
  refine ⟨h, ?_⟩
  rintro ⟨i, _, hi⟩
  rw [h] at hi
  exact Nat.not_lt_zero i hi

/-! ## The dispatcher forwards to the core it selects -/

section Dispatch

variable {α : Type} {C : Type}

theorem InfixSetCore.size_of_core2 {d : Nat} (h : d = 2) (core : InfixSetCore2 α C) :
    (InfixSetCore.of_core2 h core).size = some core.size := by
  subst h
  rfl

theorem InfixSetCore.index_of_core2 {d : Nat} (h : d = 2) (core : InfixSetCore2 α C) (i : Nat) :
    (InfixSetCore.of_core2 h core).index i = core.index i := by
  subst h
  rfl

theorem InfixSetCore.size_of_core4 [coord : CoordTypeZ C] {d : Nat} (h : d = 4)
    (core : InfixSetCore4 α C) : (InfixSetCore.of_core4 coord h core).size = some core.size := by
  subst h
  rfl

theorem InfixSetCore.index_of_core4 [coord : CoordTypeZ C] {d : Nat} (h : d = 4)
    (core : InfixSetCore4 α C) (i : Nat) :
    (InfixSetCore.of_core4 coord h core).index i = core.index i := by
  subst h
  rfl

variable [vector_traits C]

theorem InfixSet.size_of_string (h : vector_traits.DIM C = 2) (n : Nat) (S : List α)
    (cs : List C) : (InfixSet.of_string h n S cs).size = some (InfixSetCore2.mk n S cs).size :=
  InfixSetCore.size_of_core2 h _

theorem InfixSet.index_of_string (h : vector_traits.DIM C = 2) (n : Nat) (S : List α)
    (cs : List C) (i : Nat) :
    (InfixSet.of_string h n S cs).index i = (InfixSetCore2.mk n S cs).index i :=
  InfixSetCore.index_of_core2 h _ i

theorem InfixSet.size_of_string_set [CoordTypeZ C] (h : vector_traits.DIM C = 4) (n : Nat)
    (SS : List (List α)) (cs : List C) :
    (InfixSet.of_string_set h n SS cs).size = some (InfixSetCore4.mk n SS cs).size :=
  InfixSetCore.size_of_core4 h _

theorem InfixSet.index_of_string_set [CoordTypeZ C] (h : vector_traits.DIM C = 4) (n : Nat)
    (SS : List (List α)) (cs : List C) (i : Nat) :
    (InfixSet.of_string_set h n SS cs).index i = (InfixSetCore4.mk n SS cs).index i :=
  InfixSetCore.index_of_core4 h _ i

end Dispatch

/-- C11. The dispatcher is observationally equal to the core it selects. For a
coordinate type `C2` of 2 fields, `InfixSet(n, S, cs)` has `size() = n` and its
subscript at every `i` is the subscript of the single-sequence core built from
the same arguments; for a coordinate type `C4` of 4 fields, `InfixSet(n, SS, cs)`
has `size() = n` and its subscript at every `i` is the subscript of the
multi-sequence core built from the same arguments. -/
theorem InfixSet_eq_selected_core {α : Type} {C2 C4 : Type} [vector_traits C2]
    [vector_traits C4] [CoordTypeZ C4] (h2 : vector_traits.DIM C2 = 2)
    (h4 : vector_traits.DIM C4 = 4) (n : Nat) (S : List α) (SS : List (List α))
    (cs2 : List C2) (cs4 : List C4) (i : Nat) :
    ((InfixSet.of_string h2 n S cs2).size = some n ∧
      (InfixSet.of_string h2 n S cs2).index i = (InfixSetCore2.mk n S cs2).index i) ∧
    ((InfixSet.of_string_set h4 n SS cs4).size = some n ∧
      (InfixSet.of_string_set h4 n SS cs4).index i = (InfixSetCore4.mk n SS cs4).index i) :=
  ⟨⟨InfixSet.size_of_string h2 n S cs2, InfixSet.index_of_string h2 n S cs2 i⟩,
    ⟨InfixSet.size_of_string_set h4 n SS cs4, InfixSet.index_of_string_set h4 n SS cs4 i⟩⟩

/-- Witness of C11 on the coordinate types `uint2` and `uint4`: element 0 of
the set over ACGTACGT is the infix (0,4), element 0 of the set over
[AAAA, CCCCCC] is the infix (1,4,1,0) of CCCCCC. -/
theorem InfixSet_eq_selected_core_witness :
    ((InfixSet.of_string (rfl : vector_traits.DIM uint2 = 2) 3 "ACGTACGT".toList
        [uint2.mk 0 4, uint2.mk 2 5, uint2.mk 7 8]).size = some 3 ∧
      (InfixSet.of_string (rfl : vector_traits.DIM uint2 = 2) 3 "ACGTACGT".toList
        [uint2.mk 0 4, uint2.mk 2 5, uint2.mk 7 8]).index 0
        = some (Infix.mk "ACGTACGT".toList (uint2.mk 0 4))) ∧
    ((InfixSet.of_string_set (rfl : vector_traits.DIM uint4 = 4) 3
        ["AAAA".toList, "CCCCCC".toList] [uint4.mk 1 4 1 0]).size = some 3 ∧
      (InfixSet.of_string_set (rfl : vector_traits.DIM uint4 = 4) 3
        ["AAAA".toList, "CCCCCC".toList] [uint4.mk 1 4 1 0]).index 0
        = some (Infix.mk "CCCCCC".toList (uint4.mk 1 4 1 0))) := by
  have h := InfixSet_eq_selected_core (rfl : vector_traits.DIM uint2 = 2)
    (rfl : vector_traits.DIM uint4 = 4) 3 "ACGTACGT".toList ["AAAA".toList, "CCCCCC".toList]
    [uint2.mk 0 4, uint2.mk 2 5, uint2.mk 7 8] [uint4.mk 1 4 1 0] 0
  refine ⟨⟨h.1.1, ?_⟩, ⟨h.2.1, ?_⟩⟩
  · rw [h.1.2]
    rfl
  · rw [h.2.2]
    rfl

/-! ## Writing through an infix -/

theorem Infix.assign_no_wrap {α : Type} {C : Type} [CoordType C] (seq : List α) (c : C)
    (i : Nat) (v : α) (hi : i < 2 ^ 32) (hB : CoordType.x c + i < 2 ^ CoordType.BITS C)
    (hlt : CoordType.x c + i < seq.length) :
    (Infix.mk seq c).assign i v = some (Infix.mk (seq.set (CoordType.x c + i) v) c) := by
  show (if add_wrap (CoordType.BITS C) (CoordType.x c) (to_uint32 i) < seq.length then
      some (Infix.mk (seq.set (add_wrap (CoordType.BITS C) (CoordType.x c) (to_uint32 i)) v) c)
    else none) = _
  rw [to_uint32_of_lt hi, add_wrap_of_lt hB, if_pos hlt]

/-- C12. For a string `seq`, a pair coordinate `(begin, end)` of 32-bit fields
with `begin ≤ end ≤ length(seq)`, an index `i < size()` and a symbol `v`:
writing `v` through the mutable subscript of the infix at `i` succeeds and
yields a string that holds `v` at the position `begin + i`, agrees with `seq` at
every other position and has the length of `seq`; the coordinate of the infix
is unchanged, and reading the infix at `i` afterwards returns `v`. -/
theorem Infix_assign_writes_parent_at_begin_add {α : Type} (seq : List α) (c : uint2)
    (hle : c.x ≤ c.y) (hlen : c.y ≤ seq.length) (h32 : c.y < 2 ^ 32)
    (i : Nat) (hi : i < (Infix.mk seq c).size) (v : α) :
    ∃ t : Infix α uint2, (Infix.mk seq c).assign i v = some t ∧
      t.m_string[c.x + i]? = some v ∧
      (∀ j : Nat, j ≠ c.x + i → t.m_string[j]? = seq[j]?) ∧
      t.m_string.length = seq.length ∧
      t.coords = c ∧
      t.index i = some v := by
  rw [Infix.size_uint2_of_le seq c hle h32] at hi
  have hlt : c.x + i < seq.length := by omega
  refine ⟨Infix.mk (seq.set (c.x + i) v) c,
    Infix.assign_no_wrap seq c i v (by omega) (show c.x + i < 2 ^ 32 by omega) hlt, ?_, ?_, ?_,
    rfl, ?_⟩
  · show (seq.set (c.x + i) v)[c.x + i]? = some v
    simp [List.getElem?_set, hlt]
  · intro j hj
    show (seq.set (c.x + i) v)[j]? = seq[j]?
    exact List.getElem?_set_ne (Ne.symm hj)
  · show (seq.set (c.x + i) v).length = seq.length
    exact List.length_set _ _ _
  · rw [Infix.index_uint2_of_lt (seq.set (c.x + i) v) c i (by omega)]
    simp [List.getElem?_set, hlt]

/-- Witness of C12: writing T at position 1 of the infix (2,5) of ACGAACGT
puts T at position 3 of the string, and the infix then reads T at position 1. -/
theorem Infix_assign_writes_parent_at_begin_add_witness :
    ∃ t : Infix Char uint2,
      (Infix.mk "ACGAACGT".toList (uint2.mk 2 5)).assign 1 'T' = some t ∧
      t.m_string[2 + 1]? = some 'T' ∧
      t.m_string.length = "ACGAACGT".toList.length ∧
      t.coords = uint2.mk 2 5 ∧
      t.index 1 = some 'T' := by
  obtain ⟨t, ht, hv, _, hl, hc, hr⟩ := Infix_assign_writes_parent_at_begin_add
    "ACGAACGT".toList (uint2.mk 2 5) (by decide) (by decide) (by decide) 1 (by decide) 'T'
  exact ⟨t, ht, hv, hl, hc, hr⟩

/-! ## Wrap-around of the 32-bit arithmetic -/

theorem sub_wrap_of_lt {w a b : Nat} (hba : b < a) (ha : a < 2 ^ w) :
    sub_wrap w b a = 2 ^ w - (a - b) := by
  unfold sub_wrap
  rw [Nat.mod_eq_of_lt (show b < 2 ^ w by omega), Nat.mod_eq_of_lt ha]
  have h1 : b + 2 ^ w - a = 2 ^ w - (a - b) := by omega
  rw [h1]
  exact Nat.mod_eq_of_lt (by omega)

theorem Infix.size_uint2_of_lt {α : Type} (seq : List α) (c : uint2)
    (hlt : c.y < c.x) (h32 : c.x < 2 ^ 32) :
    (Infix.mk seq c).size = 2 ^ 32 - (c.x - c.y) := by
  show to_uint32 (sub_wrap 32 c.y c.x) = 2 ^ 32 - (c.x - c.y)
  rw [sub_wrap_of_lt hlt h32]
  exact to_uint32_of_lt (by omega)

/-- C14. For a string `seq`, a pair coordinate `(begin, end)` of 32-bit fields
with `begin ≤ end ≤ length(seq)` and an index `i < size()`: the 32-bit sum
`begin + i` that the subscript computes does not wrap around `2 ^ 32`, it
satisfies `begin ≤ begin + i < end ≤ length(seq)`, and the lookup of `seq` at
that position succeeds. -/
theorem Infix_index_stays_in_parent {α : Type} (seq : List α) (c : uint2)
    (hle : c.x ≤ c.y) (hlen : c.y ≤ seq.length) (h32 : c.y < 2 ^ 32)
    (i : Nat) (hi : i < (Infix.mk seq c).size) :
    add_wrap 32 c.x (to_uint32 i) = c.x + i ∧ c.x + i < 2 ^ 32 ∧
    c.x ≤ c.x + i ∧ c.x + i < c.y ∧ c.y ≤ seq.length ∧
    (seq[add_wrap 32 c.x (to_uint32 i)]?).isSome = true ∧
    ((Infix.mk seq c).index i).isSome = true := by
  rw [Infix.size_uint2_of_le seq c hle h32] at hi
  have hsum : add_wrap 32 c.x (to_uint32 i) = c.x + i := by
    rw [to_uint32_of_lt (show i < 2 ^ 32 by omega), add_wrap_of_lt (show c.x + i < 2 ^ 32 by omega)]
  have hlt : c.x + i < seq.length := by omega
  have hsome : (seq[add_wrap 32 c.x (to_uint32 i)]?).isSome = true := by
    rw [hsum, List.getElem?_eq_getElem hlt]
    rfl
  exact ⟨hsum, by omega, by omega, by omega, hlen, hsome, hsome⟩

/-- Witness of C14 on the string ACGTACGT, the coordinate (2,5) and the
index 2. -/
theorem Infix_index_stays_in_parent_witness :
    add_wrap 32 2 (to_uint32 2) = 2 + 2 ∧ 2 + 2 < 2 ^ 32 ∧
    2 ≤ 2 + 2 ∧ 2 + 2 < 5 ∧ 5 ≤ "ACGTACGT".toList.length ∧
    ("ACGTACGT".toList[add_wrap 32 2 (to_uint32 2)]?).isSome = true ∧
    ((Infix.mk "ACGTACGT".toList (uint2.mk 2 5)).index 2).isSome = true :=
  Infix_index_stays_in_parent "ACGTACGT".toList (uint2.mk 2 5)
    (by decide) (by decide) (by decide) 2 (by decide)

/-- C15, as stated, fails. The 64-bit pair coordinate `(1, 2 ^ 32 + 6)` has
`begin ≤ end` and both fields below `2 ^ 64`, yet `size()` is 5, not
`end - begin = 2 ^ 32 + 5`, and `range()` is `(6, 1)`, not `(2 ^ 32 + 6, 1)`; the
same holds for the 64-bit quadruple `(1, 2 ^ 32 + 6, 0, 0)`. -/
theorem Infix_uint64_size_range_truncated :
    ((1 : Nat) ≤ 2 ^ 32 + 6 ∧ (2 ^ 32 + 6 : Nat) < 2 ^ 64) ∧
    ((Infix.mk "ACGT".toList (uint64_2.mk 1 (2 ^ 32 + 6))).size = 5 ∧
      (Infix.mk "ACGT".toList (uint64_2.mk 1 (2 ^ 32 + 6))).size ≠ 2 ^ 32 + 6 - 1 ∧
      (Infix.mk "ACGT".toList (uint64_2.mk 1 (2 ^ 32 + 6))).range = uint2.mk 6 1 ∧
      (Infix.mk "ACGT".toList (uint64_2.mk 1 (2 ^ 32 + 6))).range.x ≠ 2 ^ 32 + 6) ∧
    ((Infix.mk "ACGT".toList (uint64_4.mk 1 (2 ^ 32 + 6) 0 0)).size = 5 ∧
      (Infix.mk "ACGT".toList (uint64_4.mk 1 (2 ^ 32 + 6) 0 0)).range = uint2.mk 6 1) := by
  refine ⟨⟨by decide, by decide⟩, ⟨?_, ?_, ?_, ?_⟩, ⟨?_, ?_⟩⟩ <;> decide

/-- C15, amended. For an infix whose coordinate fields are 64-bit values with
`begin ≤ end`, `size()` is the 32-bit value `(end - begin) mod 2 ^ 32`; it is
`end - begin` whenever `end - begin < 2 ^ 32`, also when `begin` and `end`
themselves are not below `2 ^ 32`; and `range()` is the pair `(end, begin)`
when `end` is below `2 ^ 32`. This holds for every coordinate type of 64-bit
fields, `uint64_2` and `uint64_4` among them. -/
theorem Infix_uint64_size_mod_uint32 {α : Type} {C : Type} [CoordType C]
    (hB : CoordType.BITS C = 64) (seq : List α) (c : C)
    (hle : CoordType.x c ≤ CoordType.y c) (h64 : CoordType.y c < 2 ^ 64) :
    (Infix.mk seq c).size = (CoordType.y c - CoordType.x c) % 2 ^ 32 ∧
    (CoordType.y c - CoordType.x c < 2 ^ 32 →
      (Infix.mk seq c).size = CoordType.y c - CoordType.x c) ∧
    (CoordType.y c < 2 ^ 32 →
      (Infix.mk seq c).range = uint2.mk (CoordType.y c) (CoordType.x c)) := by
  have hsize : (Infix.mk seq c).size = (CoordType.y c - CoordType.x c) % 2 ^ 32 := by
    show to_uint32 (sub_wrap (CoordType.BITS C) (CoordType.y c) (CoordType.x c)) = _
    rw [hB, sub_wrap_of_le hle h64]
    rfl
  refine ⟨hsize, fun h => ?_, fun h => ?_⟩
  · rw [hsize]
    exact Nat.mod_eq_of_lt h
  · show make_uint2 (to_uint32 (CoordType.y c)) (to_uint32 (CoordType.x c)) = _
    rw [to_uint32_of_lt h, to_uint32_of_lt (lt_of_le_of_lt hle h)]
    rfl

/-- Witness of C15, amended: the 64-bit coordinate `(2 ^ 32 + 1, 2 ^ 32 + 6)` has
`size() = 5`, which is `end - begin`. -/
theorem Infix_uint64_size_mod_uint32_witness :
    (Infix.mk "ACGT".toList (uint64_2.mk (2 ^ 32 + 1) (2 ^ 32 + 6))).size
      = (2 ^ 32 + 6 - (2 ^ 32 + 1)) % 2 ^ 32 ∧
    (Infix.mk "ACGT".toList (uint64_2.mk (2 ^ 32 + 1) (2 ^ 32 + 6))).size = 5 := by
  have h := Infix_uint64_size_mod_uint32 (rfl : CoordType.BITS uint64_2 = 64) "ACGT".toList
    (uint64_2.mk (2 ^ 32 + 1) (2 ^ 32 + 6)) (by decide) (by decide)
  exact ⟨h.1, by decide⟩

theorem InfixSetCore.no_members_of_dim3 {α : Type} {C : Type} (s : InfixSetCore α C 3) :
    s.has_members = false ∧ s.size = none ∧ ∀ i : Nat, s.index i = none := by
  cases s
  exact ⟨rfl, rfl, fun _ => rfl⟩

theorem InfixSetCore.dim_of_has_members {α : Type} {C : Type} {d : Nat}
    (s : InfixSetCore α C d) (h : s.has_members = true) : d = 2 ∨ d = 4 := by
  cases s with
  | string core => exact Or.inl rfl
  | string_set coord core => exact Or.inr rfl
  | primary d h2 h4 => exact absurd h (by simp [InfixSetCore.has_members])

theorem InfixSet.dim_two_or_four {α : Type} {C : Type} [vector_traits C] (s : InfixSet α C) :
    vector_traits.DIM C = 2 ∨ vector_traits.DIM C = 4 :=
  InfixSetCore.dim_of_has_members s.base s.member_types

theorem InfixSetCore.has_members_of_core4 {α : Type} {C : Type} [coord : CoordTypeZ C]
    {d : Nat} (h : d = 4) (core : InfixSetCore4 α C) :
    (InfixSetCore.of_core4 coord h core).has_members = true := by
  subst h
  rfl

/-- C16, as stated, fails. For `CoordDim = 3` the class selected is the empty
primary template: an object of `InfixSetCore<.., 3u>` over the 3-field
coordinate type `uint3` has no member, so neither `size()` nor a subscript; this
holds for every coordinate type; and over a coordinate type of 3 fields no
`InfixSet` exists, because its typedefs name member types the primary template
does not declare. -/
theorem InfixSetCore_dim3_provides_no_members :
    ((InfixSetCore.primary 3 (by decide) (by decide) : InfixSetCore Char uint3 3).has_members
        = false ∧
      (InfixSetCore.primary 3 (by decide) (by decide) : InfixSetCore Char uint3 3).size = none ∧
      ∀ i : Nat,
        (InfixSetCore.primary 3 (by decide) (by decide) : InfixSetCore Char uint3 3).index i
          = none) ∧
    (∀ (C : Type) (s : InfixSetCore Char C 3),
      s.has_members = false ∧ s.size = none ∧ ∀ i : Nat, s.index i = none) ∧
    (∀ (C : Type) [vector_traits C], vector_traits.DIM C = 3 → IsEmpty (InfixSet Char C)) := by
  refine ⟨⟨rfl, rfl, fun _ => rfl⟩, fun C s => InfixSetCore.no_members_of_dim3 s, ?_⟩
  intro C _ h3
  refine ⟨fun s => ?_⟩
  rcases InfixSet.dim_two_or_four s with h | h <;> omega

/-- C16, amended. An infix set accepts coordinates of 2 fields or of 4 fields
and of no other number: the coordinate type of every `InfixSet` has 2 or 4
fields, never 3, and the set has `size()` and a subscript. For a coordinate type
`C4` of 4 fields the dispatcher selects the core that provides `size()` and the
subscript resolving the owning string from the third field: `InfixSet(n, SS, cs)`
has `size() = n`, and at an index `i < length(cs)` (a `uint32`) whose owner-id is
a member of `SS` its subscript is `Infix(SS[cs[i].z], cs[i])`. -/
theorem InfixSet_accepts_two_or_four_fields {α : Type} {C C4 : Type} [vector_traits C]
    [vector_traits C4] [CoordTypeZ C4] (s : InfixSet α C) (h4 : vector_traits.DIM C4 = 4)
    (n : Nat) (SS : List (List α)) (cs : List C4) (i : Nat) (hi : i < cs.length)
    (hi32 : i < 2 ^ 32) (hz : CoordTypeZ.z (cs.get ⟨i, hi⟩) < SS.length) :
    ((vector_traits.DIM C = 2 ∨ vector_traits.DIM C = 4) ∧ vector_traits.DIM C ≠ 3 ∧
      s.has_members = true) ∧
    ((InfixSet.of_string_set h4 n SS cs).has_members = true ∧
      (InfixSet.of_string_set h4 n SS cs).size = some n ∧
      (InfixSet.of_string_set h4 n SS cs).index i
        = some (Infix.mk (SS.get ⟨CoordTypeZ.z (cs.get ⟨i, hi⟩), hz⟩) (cs.get ⟨i, hi⟩))) := by
  have hd := InfixSet.dim_two_or_four s
  refine ⟨⟨hd, by omega, s.member_types⟩, InfixSetCore.has_members_of_core4 h4 _,
    InfixSet.size_of_string_set h4 n SS cs, ?_⟩
  rw [InfixSet.index_of_string_set h4 n SS cs i]
  exact InfixSetCore4.index_in_coords_owner n SS cs i hi hi32 hz

/-- Witness of C16, amended: a set over ACGTACGT with `uint2` coordinates has a
coordinate type of 2 fields, and the set over [AAAA, CCCCCC] with the `uint4`
coordinate (1,4,1,0) has size 1 and element 0 the infix (1,4,1,0) of CCCCCC. -/
theorem InfixSet_accepts_two_or_four_fields_witness :
    ((vector_traits.DIM uint2 = 2 ∨ vector_traits.DIM uint2 = 4) ∧
      vector_traits.DIM uint2 ≠ 3) ∧
    ((InfixSet.of_string_set (rfl : vector_traits.DIM uint4 = 4) 1
        ["AAAA".toList, "CCCCCC".toList] [uint4.mk 1 4 1 0]).size = some 1 ∧
      (InfixSet.of_string_set (rfl : vector_traits.DIM uint4 = 4) 1
        ["AAAA".toList, "CCCCCC".toList] [uint4.mk 1 4 1 0]).index 0
        = some (Infix.mk "CCCCCC".toList (uint4.mk 1 4 1 0))) := by
  have h := InfixSet_accepts_two_or_four_fields
    (InfixSet.of_string (rfl : vector_traits.DIM uint2 = 2) 3 "ACGTACGT".toList
      [uint2.mk 0 4, uint2.mk 2 5, uint2.mk 7 8])
    (rfl : vector_traits.DIM uint4 = 4) 1 ["AAAA".toList, "CCCCCC".toList]
    [uint4.mk 1 4 1 0] 0 (by decide) (by decide) (by decide)
  exact ⟨⟨h.1.1, h.1.2.1⟩, h.2.2.1, h.2.2.2⟩

/-- C17. For a pair coordinate of 32-bit fields with `begin > end`, `size()` is
`(end - begin) mod 2 ^ 32 = 2 ^ 32 - (begin - end)`, which is not 0, so every
index `i` below that value satisfies `i < size()`. -/
theorem Infix_size_wraps_of_end_lt_begin {α : Type} (seq : List α) (c : uint2)
    (hlt : c.y < c.x) (h32 : c.x < 2 ^ 32) :
    ((Infix.mk seq c).size : Int) = ((c.y : Int) - (c.x : Int)) % 2 ^ 32 ∧
    (Infix.mk seq c).size = 2 ^ 32 - (c.x - c.y) ∧
    (Infix.mk seq c).size ≠ 0 ∧
    ∀ i : Nat, i < 2 ^ 32 - (c.x - c.y) → i < (Infix.mk seq c).size := by
  have h := Infix.size_uint2_of_lt seq c hlt h32
  refine ⟨?_, h, ?_, ?_⟩
  · rw [h]
    omega
  · rw [h]
    omega
  · intro i hi
    rw [h]
    exact hi

/-- Witness of C17: the coordinate (5,2) has `size() = 2 ^ 32 - 3`. -/
theorem Infix_size_wraps_of_end_lt_begin_witness :
    (Infix.mk "ACGTACGT".toList (uint2.mk 5 2)).size = 2 ^ 32 - (5 - 2) ∧
    (Infix.mk "ACGTACGT".toList (uint2.mk 5 2)).size = 4294967293 :=
  ⟨(Infix_size_wraps_of_end_lt_begin "ACGTACGT".toList (uint2.mk 5 2)
      (by decide) (by decide)).2.1, by decide⟩

/-! ## A string set read through one owner -/

theorem InfixSetCore4.index_of_owner {α : Type} (n : Nat) (SS : List (List α))
    (cs : List uint4) (i : Nat) (hi : i < cs.length) (hi32 : i < 2 ^ 32)
    (k : Nat) (hk : k < SS.length) (hz : (cs.get ⟨i, hi⟩).z = k) :
    (InfixSetCore4.mk n SS cs).index i
      = some (Infix.mk (SS.get ⟨k, hk⟩) (cs.get ⟨i, hi⟩)) := by
  subst hz
  exact InfixSetCore4.index_in_coords_owner n SS cs i hi hi32 hk

/-- C18. For a string set `SS`, a member `k < length(SS)`, an array `cs` of
quadruple coordinates that all name the owner `k`, and an index `i < length(cs)`
(a `uint32`): the infix `multi(SS, cs)[i]` and the infix `single(SS[k], cs2)[i]`,
where `cs2[i] = (cs[i].begin, cs[i].end)`, both exist and have the same parent,
the same `size()` and the same symbol at every position `j`. The fourth field
has no effect: replacing it in every coordinate by any other value `g` leaves
the parent, the `size()` and every symbol of `multi(SS, cs)[i]` as they are. -/
theorem InfixSetCore4_one_owner_eq_InfixSetCore2 {α : Type} (n : Nat) (SS : List (List α))
    (k : Nat) (hk : k < SS.length) (cs : List uint4) (hown : ∀ q ∈ cs, q.z = k)
    (i : Nat) (hi : i < cs.length) (hi32 : i < 2 ^ 32) :
    ∃ (u : Infix α uint4) (v : Infix α uint2),
      (InfixSetCore4.mk n SS cs).index i = some u ∧
      (InfixSetCore2.mk n (SS.get ⟨k, hk⟩) (cs.map fun q => uint2.mk q.x q.y)).index i
        = some v ∧
      u.m_string = v.m_string ∧ u.m_string = SS.get ⟨k, hk⟩ ∧
      u.size = v.size ∧ (∀ j : Nat, u.index j = v.index j) ∧
      ∀ g : uint4 → Nat, ∃ u2 : Infix α uint4,
        (InfixSetCore4.mk n SS (cs.map fun q => uint4.mk q.x q.y q.z (g q))).index i = some u2 ∧
        u2.m_string = u.m_string ∧ u2.size = u.size ∧ ∀ j : Nat, u2.index j = u.index j := by
  have hz : (cs.get ⟨i, hi⟩).z = k := hown _ (List.get_mem cs i hi)
  have hi2 : i < (cs.map fun q => uint2.mk q.x q.y).length := by simpa using hi
  have hget2 : (cs.map fun q => uint2.mk q.x q.y).get ⟨i, hi2⟩
      = uint2.mk (cs.get ⟨i, hi⟩).x (cs.get ⟨i, hi⟩).y := by simp
  refine ⟨Infix.mk (SS.get ⟨k, hk⟩) (cs.get ⟨i, hi⟩),
    Infix.mk (SS.get ⟨k, hk⟩) (uint2.mk (cs.get ⟨i, hi⟩).x (cs.get ⟨i, hi⟩).y),
    InfixSetCore4.index_of_owner n SS cs i hi hi32 k hk hz, ?_, rfl, rfl, rfl, fun _ => rfl, ?_⟩
  · rw [InfixSetCore2.index_in_coords n _ _ i hi2 hi32, hget2]
  · intro g
    have hi4 : i < (cs.map fun q => uint4.mk q.x q.y q.z (g q)).length := by simpa using hi
    have hget4 : (cs.map fun q => uint4.mk q.x q.y q.z (g q)).get ⟨i, hi4⟩
        = uint4.mk (cs.get ⟨i, hi⟩).x (cs.get ⟨i, hi⟩).y (cs.get ⟨i, hi⟩).z
            (g (cs.get ⟨i, hi⟩)) := by simp
    refine ⟨Infix.mk (SS.get ⟨k, hk⟩) (uint4.mk (cs.get ⟨i, hi⟩).x (cs.get ⟨i, hi⟩).y
      (cs.get ⟨i, hi⟩).z (g (cs.get ⟨i, hi⟩))), ?_, rfl, rfl, fun _ => rfl⟩
    rw [InfixSetCore4.index_of_owner n SS _ i hi4 hi32 k hk (by rw [hget4]; exact hz), hget4]

/-- Witness of C18 on SS = [AAAA, CCCCCC], the owner 1 and the coordinates
(1,4,1,0) and (0,6,1,9): element 1 read through the string set and through the
member CCCCCC alone has the same parent and the same size 6. -/
theorem InfixSetCore4_one_owner_eq_InfixSetCore2_witness :
    ∃ (u : Infix Char uint4) (v : Infix Char uint2),
      (InfixSetCore4.mk 2 ["AAAA".toList, "CCCCCC".toList]
        [uint4.mk 1 4 1 0, uint4.mk 0 6 1 9]).index 1 = some u ∧
      (InfixSetCore2.mk 2 "CCCCCC".toList [uint2.mk 1 4, uint2.mk 0 6]).index 1 = some v ∧
      u.m_string = v.m_string ∧ u.size = v.size ∧ ∀ j : Nat, u.index j = v.index j := by
  obtain ⟨u, v, hu, hv, hp, _, hs, hj, _⟩ := InfixSetCore4_one_owner_eq_InfixSetCore2 2
    ["AAAA".toList, "CCCCCC".toList] 1 (by decide) [uint4.mk 1 4 1 0, uint4.mk 0 6 1 9]
    (by decide) 1 (by decide) (by decide)
  exact ⟨u, v, hu, hv, hp, hs, hj⟩

end nvbio
